import Mathlib

/-!
go-yoga-proxy: connection-string parsing and request-to-command mapping.

A shallow embedding of `main.go`.  Go strings are modelled as lists of
Unicode code points (`Str`), which is exact for valid UTF-8 text.  Go `int`
is the 64-bit `int` of the usual server targets and is modelled as an `Int`
kept inside `[-2^63, 2^63)` by the library functions that produce it.
A Go `panic` is modelled as `none`.
-/

namespace YogaProxy

/-- Go `string`, as its sequence of code points. -/
abbrev Str := List Char

/-! ## Library functions used by `main.go` (package `strings`) -/

/-- Go `unicode.IsSpace`: the Latin-1 spaces and the Unicode White_Space
code points above Latin-1. -/
def isSpace (c : Char) : Bool :=
  let n := c.toNat
  n == 0x09 || n == 0x0A || n == 0x0B || n == 0x0C || n == 0x0D || n == 0x20 ||
  n == 0x85 || n == 0xA0 || n == 0x1680 || (0x2000 ≤ n && n ≤ 0x200A) ||
  n == 0x2028 || n == 0x2029 || n == 0x202F || n == 0x205F || n == 0x3000

/-- Go `strings.TrimSpace`: drop leading and trailing white space. -/
def TrimSpace (s : Str) : Str :=
  ((s.dropWhile isSpace).reverse.dropWhile isSpace).reverse

/-- Does `sep` occur at the start of `s`? -/
def startsWith : Str → Str → Bool
  | [], _ => true
  | _ :: _, [] => false
  | a :: as, b :: bs => a == b && startsWith as bs

/-- The scan of `strings.Split` for a non-empty separator.  The first
argument counts the characters of a matched separator that are still to be
skipped; the head of the result is the segment being collected. -/
def splitScan (sep : Str) : Nat → Str → List Str
  | _, [] => [[]]
  | skip + 1, _ :: rest => splitScan sep skip rest
  | 0, c :: rest =>
    if startsWith sep (c :: rest) then
      [] :: splitScan sep (sep.length - 1) rest
    else
      match splitScan sep 0 rest with
      | [] => [[c]]
      | seg :: segs => (c :: seg) :: segs

/-- Go `strings.Split(s, sep)`: with an empty separator the string is
exploded into its code points, otherwise it is cut at every non-overlapping
occurrence of `sep`, scanning from the left. -/
def Split (s sep : Str) : List Str :=
  if sep = [] then s.map (fun c => [c]) else splitScan sep 0 s

/-- The scan of `strings.Index`, counting positions from `i`. -/
def indexScan (substr : Str) : Nat → Str → Int
  | i, [] => if substr = [] then (i : Int) else -1
  | i, c :: cs => if startsWith substr (c :: cs) then (i : Int) else indexScan substr (i + 1) cs

/-- Go `strings.Index(s, substr)`: position of the first occurrence of
`substr` in `s`, or `-1`.  (Positions count code points here and bytes in
Go; `main.go` only tests the sign.) -/
def Index (s substr : Str) : Int := indexScan substr 0 s

/-! ## Library functions used by `main.go` (package `strconv`) -/

/-- The two causes carried by a `strconv.NumError`. -/
inductive NumErr
  | ErrSyntax
  | ErrRange
  deriving DecidableEq, Repr

/-- Go `strconv.IntSize` on a 64-bit target. -/
def IntSize : Nat := 64

/-- Largest `uint64`. -/
def maxUint64 : Nat := 2 ^ 64 - 1

/-- The digit loop of `strconv.ParseUint(s, base, bitSize)`, from the
accumulator `n`; `maxVal = 2^bitSize - 1`.  A range error is reported at the
character where the overflow happens, before the rest is looked at. -/
def parseUintLoop (base maxVal : Nat) : Nat → Str → Nat × Option NumErr
  | n, [] => (n, none)
  | n, c :: cs =>
    let lower := c.toNat ||| 0x20
    if 48 ≤ c.toNat ∧ c.toNat ≤ 57 then
      let d := c.toNat - 48
      if base ≤ d then (0, some NumErr.ErrSyntax)
      else if maxUint64 / base + 1 ≤ n then (maxVal, some NumErr.ErrRange)
      else
        let n1 := (n * base + d) % 2 ^ 64
        if n1 < n * base ∨ maxVal < n1 then (maxVal, some NumErr.ErrRange)
        else parseUintLoop base maxVal n1 cs
    else if 97 ≤ lower ∧ lower ≤ 122 then
      let d := lower - 97 + 10
      if base ≤ d then (0, some NumErr.ErrSyntax)
      else if maxUint64 / base + 1 ≤ n then (maxVal, some NumErr.ErrRange)
      else
        let n1 := (n * base + d) % 2 ^ 64
        if n1 < n * base ∨ maxVal < n1 then (maxVal, some NumErr.ErrRange)
        else parseUintLoop base maxVal n1 cs
    else (0, some NumErr.ErrSyntax)

/-- Go `strconv.ParseUint(s, 10, 0)`. -/
def ParseUint (s : Str) : Nat × Option NumErr :=
  if s = [] then (0, some NumErr.ErrSyntax)
  else parseUintLoop 10 (2 ^ IntSize - 1) 0 s

/-- The part of `strconv.ParseInt(s, 10, 0)` after the sign has been picked
off: a syntax error gives 0, a value out of range gives the nearest bound
of `int` together with `ErrRange`. -/
def parseIntSigned (neg : Bool) (s : Str) : Int × Option NumErr :=
  match ParseUint s with
  | (_, some NumErr.ErrSyntax) => (0, some NumErr.ErrSyntax)
  | (un, _) =>
    let cutoff : Nat := 2 ^ (IntSize - 1)
    if !neg && cutoff ≤ un then ((cutoff : Int) - 1, some NumErr.ErrRange)
    else if neg && cutoff < un then (-(cutoff : Int), some NumErr.ErrRange)
    else if neg then (-(un : Int), none)
    else ((un : Int), none)

/-- Go `strconv.ParseInt(s, 10, 0)`. -/
def ParseInt : Str → Int × Option NumErr
  | [] => (0, some NumErr.ErrSyntax)
  | c :: cs =>
    if c = '+' then parseIntSigned false cs
    else if c = '-' then parseIntSigned true cs
    else parseIntSigned false (c :: cs)

/-- Go `strconv.Atoi(s)`, documented as `ParseInt(s, 10, 0)` converted to
`int`: the value and the error are both returned. -/
def Atoi (s : Str) : Int × Option NumErr := ParseInt s

/-- The digit character of `d < 10`. -/
def digitChar (d : Nat) : Char := Char.ofNat (48 + d)

/-- The loop of `strconv`'s `formatBits` in base 10: digits are produced
from the least significant one, in front of `acc`.  The first argument
bounds the number of iterations. -/
def formatBits : Nat → Nat → Str → Str
  | 0, u, acc => digitChar (u % 10) :: acc
  | fuel + 1, u, acc =>
    if 10 ≤ u then formatBits fuel (u / 10) (digitChar (u % 10) :: acc)
    else digitChar u :: acc

/-- Go `strconv.FormatInt(i, 10)`; `strconv.Itoa` is the same function.
A number has no more digits than its value, so the loop bound is never
reached. -/
def FormatInt (i : Int) : Str :=
  if i < 0 then '-' :: formatBits i.natAbs i.natAbs []
  else formatBits i.natAbs i.natAbs []

/-- Go `strconv.Itoa`. -/
def Itoa (i : Int) : Str := FormatInt i

/-! ## `main.go`: the target descriptor parser -/

/-- `type RedisServer struct`. -/
structure RedisServer where
  Addr : Str
  Password : Str
  DefaultDb : Int
  deriving DecidableEq, Repr

/-- `func splitTrim(str, sep string) []string`: every segment of the split
is trimmed, and it is kept when the segment as split (`subs[i]`, before
trimming) is non-empty. -/
def splitTrim (str sep : Str) : List Str :=
  (Split str sep).foldl
    (fun ret sub => let v := TrimSpace sub; if 0 < sub.length then ret ++ [v] else ret) []

/-- `func parseServerItem(serverConfig string) RedisServer`; `none` is the
panic "invalid servers argument". -/
def parseServerItem (serverConfig : Str) : Option RedisServer :=
  match splitTrim serverConfig ['/'] with
  | [item0] => some { Addr := item0, Password := [], DefaultDb := 0 }
  | [item0, item1] =>
    let dbIndex := (Atoi item1).1
    some { Addr := item0, Password := [], DefaultDb := dbIndex }
  | [item0, item1, item2] =>
    let dbIndex := (Atoi item2).1
    some { Addr := item1, Password := item0, DefaultDb := dbIndex }
  | _ => none

/-- The list the specification describes for `splitTrim`: split, trim every
segment, then discard the segments that are empty. -/
def splitTrimSpec (str sep : Str) : List Str :=
  ((Split str sep).map TrimSpace).filter (fun v => v ≠ [])

/-! ## `main.go`: start-up -/

/-- The package-level variables `contextPath`, `port`, `redisServer`. -/
structure Globals where
  contextPath : Str
  port : Str
  redisServer : RedisServer
  deriving DecidableEq, Repr

/-- `func init()`, from the parsed flag values: the slash is put in front of
a non-empty context path in which `strings.Index` finds no `"/"`.  `none`
is the panic of `parseServerItem`. -/
def init (contextPathArg redisAddrArg : Str) (portArg : Int) : Option Globals :=
  let contextPath :=
    if contextPathArg ≠ [] ∧ Index contextPathArg ['/'] < 0 then '/' :: contextPathArg
    else contextPathArg
  match parseServerItem redisAddrArg with
  | none => none
  | some server => some { contextPath := contextPath, port := Itoa portArg, redisServer := server }

/-- The route pattern that `handleFunc` registers for `path`:
`contextPath + path`. -/
def handleFunc (contextPath path : Str) : Str := contextPath ++ path

/-! ## The store, the HTTP request and the HTTP response -/

/-- A non-nil Go `error`: a go-redis `proto.RedisError` (a string type, so
two of them are equal when their texts are), or an error of any other type
with its message. -/
inductive GoError
  | RedisError (msg : Str)
  | other (msg : Str)
  deriving DecidableEq, Repr

/-- The method `Error()`. -/
def GoError.Error : GoError → Str
  | GoError.RedisError msg => msg
  | GoError.other msg => msg

/-- The value `redis.Nil`, `proto.RedisError("redis: nil")`. -/
def redisNil : GoError := GoError.RedisError "redis: nil".toList

/-- The fields of `redis.Options` that `main.go` sets. -/
structure Options where
  Addr : Str
  Password : Str
  DB : Int
  deriving DecidableEq, Repr

/-- The commands `main.go` issues; `F` stands for `float64` and `D` for
`time.Duration`. -/
inductive Cmd (F D : Type)
  | Get (key : Str)
  | Set (key value : Str) (expiration : D)
  | ZAdd (key : Str) (score : F) (member : Str)
  | Del (keys : List Str)
  deriving DecidableEq, Repr

/-- One command sent to the store, with the options of the client that
sent it. -/
structure Issued (F D : Type) where
  client : Options
  cmd : Cmd F D
  deriving DecidableEq, Repr

/-- The state of the store as the proxy sees it: the commands issued so
far, oldest first. -/
abbrev Trace (F D : Type) := List (Issued F D)

/-- The collaborators outside `main.go`: the two parsers of the standard
library and the answers of the store, which may depend on everything issued
before. -/
structure Env (F D : Type) where
  ParseFloat : Str → Except GoError F
  ParseDuration : Str → Except GoError D
  stringResult : Trace F D → Issued F D → Str × Option GoError
  intResult : Trace F D → Issued F D → Int × Option GoError

/-- An `*http.Request` after form parsing: the values of each form field. -/
structure Request where
  Form : Str → List Str

/-- `r.FormValue(key)`: the first value of the field, `""` when absent. -/
def Request.FormValue (r : Request) (key : Str) : Str :=
  match r.Form key with
  | [] => []
  | v :: _ => v

/-- What a handler leaves in the `http.ResponseWriter`. -/
structure Response where
  status : Nat
  body : Str
  deriving DecidableEq, Repr

/-- `w.Write(b)` as the only write: status 200 and body `b`. -/
def writeBody (b : Str) : Response := { status := 200, body := b }

/-- `http.Error(w, msg, code)`: status `code`, body `msg` and a newline. -/
def httpError (msg : Str) (code : Nat) : Response := { status := code, body := msg ++ ['\n'] }

/-- Modelled from the spec: `go_utils.EmptyThen(s, then)` of the imported
package `github.com/bingoohuang/go-utils`, whose source is not part of this
repository.  The specification has the adapter "apply a default of `"0"`
when a `db` field is absent or empty": `then` when `s` is empty, else `s`. -/
def EmptyThen (s thenStr : Str) : Str := if s = [] then thenStr else s

/-! ## `main.go`: the command executor -/

/-- The options of the client that go-redis `redis.NewClient(opt)` returns,
as far as `main.go` sets them: an empty `Addr` is replaced by
`localhost:6379`.  The client connects when its first command is issued. -/
def NewClient (opt : Options) : Options :=
  if opt.Addr = [] then { opt with Addr := "localhost:6379".toList } else opt

/-- `func newRedisClientToDb(server RedisServer, db int) *redis.Client`. -/
def newRedisClientToDb (server : RedisServer) (db : Int) : Options :=
  NewClient { Addr := server.Addr, Password := server.Password, DB := db }

/-- `func getRedisContent(key string, db int) (string, error)`. -/
def getRedisContent {F D : Type} (env : Env F D) (redisServer : RedisServer) (key : Str) (db : Int)
    (t : Trace F D) : (Str × Option GoError) × Trace F D :=
  let client := newRedisClientToDb redisServer db
  let c : Issued F D := { client := client, cmd := Cmd.Get key }
  (env.stringResult t c, t ++ [c])

/-- `func zaddRedisContent(key, value, score string, db int) (int64, error)`. -/
def zaddRedisContent {F D : Type} (env : Env F D) (redisServer : RedisServer) (key value score : Str)
    (db : Int) (t : Trace F D) : (Int × Option GoError) × Trace F D :=
  let client := newRedisClientToDb redisServer db
  match env.ParseFloat score with
  | Except.error e => ((0, some e), t)
  | Except.ok f =>
    let c : Issued F D := { client := client, cmd := Cmd.ZAdd key f value }
    (env.intResult t c, t ++ [c])

/-- `func setRedisContent(key, value, ttl string, db int) (string, error)`. -/
def setRedisContent {F D : Type} (env : Env F D) (redisServer : RedisServer) (key value ttl : Str)
    (db : Int) (t : Trace F D) : (Str × Option GoError) × Trace F D :=
  let client := newRedisClientToDb redisServer db
  match env.ParseDuration ttl with
  | Except.error err => (([], some err), t)
  | Except.ok duration =>
    let c : Issued F D := { client := client, cmd := Cmd.Set key value duration }
    (env.stringResult t c, t ++ [c])

/-- `func deleteMultiKeys(keys []string, db int) (int64, error)`. -/
def deleteMultiKeys {F D : Type} (env : Env F D) (redisServer : RedisServer) (keys : List Str) (db : Int)
    (t : Trace F D) : (Int × Option GoError) × Trace F D :=
  let client := newRedisClientToDb redisServer db
  let c : Issued F D := { client := client, cmd := Cmd.Del keys }
  (env.intResult t c, t ++ [c])

/-! ## `main.go`: the request adapter -/

/-- `func zaddCache(w http.ResponseWriter, r *http.Request)`. -/
def zaddCache {F D : Type} (env : Env F D) (redisServer : RedisServer) (r : Request) (t : Trace F D) :
    Response × Trace F D :=
  let key := TrimSpace (r.FormValue "key".toList)
  let value := TrimSpace (r.FormValue "value".toList)
  let score := TrimSpace (r.FormValue "score".toList)
  let db := (Atoi (EmptyThen (r.FormValue "db".toList) "0".toList)).1
  match zaddRedisContent env redisServer key value score db t with
  | ((_, some err), t1) => (httpError err.Error 405, t1)
  | ((i, none), t1) => (writeBody (FormatInt i), t1)

/-- `func setCache(w http.ResponseWriter, r *http.Request)`. -/
def setCache {F D : Type} (env : Env F D) (redisServer : RedisServer) (r : Request) (t : Trace F D) :
    Response × Trace F D :=
  let key := TrimSpace (r.FormValue "key".toList)
  let value := TrimSpace (r.FormValue "value".toList)
  let ttl := TrimSpace (r.FormValue "ttl".toList)
  let db := (Atoi (EmptyThen (r.FormValue "db".toList) "0".toList)).1
  match setRedisContent env redisServer key value ttl db t with
  | ((_, some err), t1) => (httpError err.Error 405, t1)
  | ((val, none), t1) => (writeBody val, t1)

/-- The answer of `getCache` to an outcome `(val, err)` of
`getRedisContent`: lines 98 to 108. -/
def getCacheRespond (val : Str) (err : Option GoError) : Response :=
  if err = some redisNil then writeBody []
  else
    match err with
    | some e => httpError e.Error 405
    | none => writeBody val

/-- `func getCache(w http.ResponseWriter, r *http.Request)`. -/
def getCache {F D : Type} (env : Env F D) (redisServer : RedisServer) (r : Request) (t : Trace F D) :
    Response × Trace F D :=
  let key := TrimSpace (r.FormValue "key".toList)
  let db := (Atoi (EmptyThen (r.FormValue "db".toList) "0".toList)).1
  match getRedisContent env redisServer key db t with
  | ((val, err), t1) => (getCacheRespond val err, t1)

/-- `func clearCache(w http.ResponseWriter, r *http.Request)`. -/
def clearCache {F D : Type} (env : Env F D) (redisServer : RedisServer) (r : Request) (t : Trace F D) :
    Response × Trace F D :=
  let keys := TrimSpace (r.FormValue "keys".toList)
  let db := (Atoi (EmptyThen (r.FormValue "db".toList) "0".toList)).1
  match deleteMultiKeys env redisServer (Split keys [',']) db t with
  | ((_, some err), t1) => (httpError err.Error 405, t1)
  | ((result, none), t1) => (writeBody (FormatInt result), t1)

/-- The db index a handler derives from a request: line 68, 83, 95, 113. -/
def requestDb (r : Request) : Int :=
  (Atoi (EmptyThen (r.FormValue "db".toList) "0".toList)).1

/-- A store for concrete runs: no float or duration is parseable except
the texts `"1"` and `"1s"`, every read finds nothing, every count is 1. -/
def sampleEnv : Env Nat Nat where
  ParseFloat := fun s => if s = "1".toList then Except.ok 1 else Except.error (GoError.other "invalid syntax".toList)
  ParseDuration := fun s => if s = "1s".toList then Except.ok 1 else Except.error (GoError.other "invalid duration".toList)
  stringResult := fun _ c =>
    match c.cmd with
    | Cmd.Get _ => ([], some redisNil)
    | _ => ("OK".toList, none)
  intResult := fun _ _ => (1, none)

/-- A descriptor for concrete runs, with a default db that is not 0. -/
def sampleServer : RedisServer :=
  { Addr := "127.0.0.1:6379".toList, Password := [], DefaultDb := 7 }

/-- A request from a list of (field, value) pairs. -/
def requestOf (fields : List (Str × Str)) : Request :=
  { Form := fun key => (fields.filter (fun kv => kv.1 = key)).map (fun kv => kv.2) }

/-! ## Predicates used in the statements -/

/-- All characters are decimal digits. -/
def allDigits (s : Str) : Prop := ∀ c ∈ s, 48 ≤ c.toNat ∧ c.toNat ≤ 57

/-- The number a digit string denotes, continuing from `n`. -/
def decFold (n : Nat) (s : Str) : Nat := s.foldl (fun n c => n * 10 + (c.toNat - 48)) n

/-- No white space at either end. -/
def noOuterSpace (s : Str) : Prop :=
  (∀ c, s.head? = some c → isSpace c = false) ∧ (∀ c, s.getLast? = some c → isSpace c = false)

/-- The segment of the configuration string that `parseServerItem` hands to
`strconv.Atoi`, when there is one. -/
def dbSegment (serverConfig : Str) : Option Str :=
  match splitTrim serverConfig ['/'] with
  | [_, item1] => some item1
  | [_, _, item2] => some item2
  | _ => none

/-! ## Lemmas on the library functions -/

theorem digitChar_toNat (d : Nat) (h : d < 10) : (digitChar d).toNat = 48 + d := by
  interval_cases d <;> rfl

theorem decFold_ge (s : Str) : ∀ n, n ≤ decFold n s := by
  induction s with
  | nil => intro n; exact le_refl _
  | cons c cs ih =>
    intro n
    have h := ih (n * 10 + (c.toNat - 48))
    simp only [decFold, List.foldl_cons] at h ⊢
    omega

theorem decFold_append (s t : Str) (n : Nat) : decFold n (s ++ t) = decFold (decFold n s) t := by
  simp [decFold, List.foldl_append]

theorem formatBits_spec : ∀ (fuel u : Nat) (acc : Str), u ≤ fuel →
    ∃ ds, formatBits fuel u acc = ds ++ acc ∧ ds ≠ [] ∧ allDigits ds ∧ decFold 0 ds = u := by
  intro fuel
  induction fuel with
  | zero =>
    intro u acc hu
    have hu0 : u = 0 := by omega
    subst hu0
    refine ⟨[digitChar 0], rfl, by simp, ?_, rfl⟩
    intro c hc
    simp only [List.mem_singleton] at hc
    subst hc
    decide
  | succ f ih =>
    intro u acc hu
    by_cases h10 : 10 ≤ u
    · obtain ⟨ds, hds, hne, hdig, hval⟩ := ih (u / 10) (digitChar (u % 10) :: acc) (by omega)
      refine ⟨ds ++ [digitChar (u % 10)], ?_, by simp, ?_, ?_⟩
      · simp [formatBits, h10, hds]
      · intro c hc
        rcases List.mem_append.1 hc with hc | hc
        · exact hdig c hc
        · simp only [List.mem_singleton] at hc
          subst hc
          rw [digitChar_toNat _ (Nat.mod_lt _ (by norm_num))]
          have := Nat.mod_lt u (show 10 > 0 by norm_num)
          omega
      · rw [decFold_append, hval]
        simp only [decFold, List.foldl_cons, List.foldl_nil]
        rw [digitChar_toNat _ (Nat.mod_lt _ (by norm_num))]
        omega
    · have hu10 : u < 10 := by omega
      refine ⟨[digitChar u], ?_, by simp, ?_, ?_⟩
      · simp [formatBits, h10]
      · intro c hc
        simp only [List.mem_singleton] at hc
        subst hc
        rw [digitChar_toNat _ hu10]
        omega
      · simp only [decFold, List.foldl_cons, List.foldl_nil]
        rw [digitChar_toNat _ hu10]
        omega

theorem parseUintLoop_digits (s : Str) : ∀ n, allDigits s → decFold n s < 2 ^ 64 →
    parseUintLoop 10 (2 ^ 64 - 1) n s = (decFold n s, none) := by
  induction s with
  | nil => intro n _ _; rfl
  | cons c cs ih =>
    intro n hd hlt
    have hc := hd c (List.mem_cons_self _ _)
    have hcs : allDigits cs := fun x hx => hd x (List.mem_cons_of_mem _ hx)
    have hstep : decFold n (c :: cs) = decFold (n * 10 + (c.toNat - 48)) cs := rfl
    rw [hstep] at hlt ⊢
    have hge := decFold_ge cs (n * 10 + (c.toNat - 48))
    have hmod : (n * 10 + (c.toNat - 48)) % 2 ^ 64 = n * 10 + (c.toNat - 48) :=
      Nat.mod_eq_of_lt (by omega)
    have h1 : ¬ (10 ≤ c.toNat - 48) := by omega
    have h2 : ¬ (maxUint64 / 10 + 1 ≤ n) := by
      have : maxUint64 / 10 + 1 = 1844674407370955162 := by decide
      rw [this]; omega
    have h3 : ¬ (n * 10 + (c.toNat - 48) < n * 10 ∨ 2 ^ 64 - 1 < n * 10 + (c.toNat - 48)) := by
      omega
    rw [← ih _ hcs hlt]
    conv_lhs => unfold parseUintLoop
    simp only [hc, and_self, if_true, h1, h2, if_false, hmod, h3]

theorem ParseUint_digits (s : Str) (hne : s ≠ []) (hd : allDigits s) (hlt : decFold 0 s < 2 ^ 64) :
    ParseUint s = (decFold 0 s, none) := by
  unfold ParseUint
  rw [if_neg hne]
  exact parseUintLoop_digits s 0 hd hlt

theorem parseIntSigned_pos (s : Str) (hne : s ≠ []) (hd : allDigits s)
    (hlt : decFold 0 s < 2 ^ 63) : parseIntSigned false s = ((decFold 0 s : Int), none) := by
  unfold parseIntSigned
  rw [ParseUint_digits s hne hd (by omega)]
  have h : ¬ (2 ^ (IntSize - 1) ≤ decFold 0 s) := by
    have : (2 : Nat) ^ (IntSize - 1) = 2 ^ 63 := rfl
    omega
  simp [h]

theorem parseIntSigned_neg (s : Str) (hne : s ≠ []) (hd : allDigits s)
    (hlt : decFold 0 s ≤ 2 ^ 63) : parseIntSigned true s = (-(decFold 0 s : Int), none) := by
  unfold parseIntSigned
  rw [ParseUint_digits s hne hd (by omega)]
  have h : ¬ (2 ^ (IntSize - 1) < decFold 0 s) := by
    have : (2 : Nat) ^ (IntSize - 1) = 2 ^ 63 := rfl
    omega
  simp [h]

/-- The texts `FormatInt` produces for a natural number. -/
theorem formatBits_self (u : Nat) :
    formatBits u u [] ≠ [] ∧ allDigits (formatBits u u []) ∧ decFold 0 (formatBits u u []) = u := by
  obtain ⟨ds, hds, hne, hdig, hval⟩ := formatBits_spec u u [] (le_refl _)
  rw [List.append_nil] at hds
  rw [hds]
  exact ⟨hne, hdig, hval⟩

/-- `Atoi` reads back what `Itoa` writes, for every value of a 64-bit `int`. -/
theorem Atoi_Itoa (n : Int) (hlo : -2 ^ 63 ≤ n) (hhi : n < 2 ^ 63) : Atoi (Itoa n) = (n, none) := by
  obtain ⟨hne, hdig, hval⟩ := formatBits_self n.natAbs
  unfold Atoi Itoa FormatInt
  by_cases hneg : n < 0
  · rw [if_pos hneg]
    have hplus : ¬ ('-' = '+') := by decide
    simp only [ParseInt, hplus, if_false, if_true]
    rw [parseIntSigned_neg _ hne hdig (by rw [hval]; omega), hval]
    congr 1
    omega
  · rw [if_neg hneg]
    cases hfb : formatBits n.natAbs n.natAbs [] with
    | nil => exact absurd hfb hne
    | cons c cs =>
      have hc : 48 ≤ c.toNat ∧ c.toNat ≤ 57 := by
        have := hdig c
        rw [hfb] at this
        exact this (List.mem_cons_self _ _)
      have hp : ¬ (c = '+') := by
        intro h; rw [h] at hc; revert hc; decide
      have hm : ¬ (c = '-') := by
        intro h; rw [h] at hc; revert hc; decide
      simp only [ParseInt, hp, hm, if_false]
      rw [← hfb, parseIntSigned_pos _ hne hdig (by rw [hval]; omega), hval]
      congr 1
      omega

theorem parseIntSigned_error (neg : Bool) (s : Str) :
    ((parseIntSigned neg s).2 = some NumErr.ErrSyntax → (parseIntSigned neg s).1 = 0) ∧
    ((parseIntSigned neg s).2 = some NumErr.ErrRange →
      (parseIntSigned neg s).1 = if neg then -2 ^ 63 else 2 ^ 63 - 1) := by
  unfold parseIntSigned
  split
  · simp
  · cases neg <;> simp only [IntSize] <;> split_ifs <;> simp_all

theorem parseIntSigned_nonneg (s : Str) : 0 ≤ (parseIntSigned false s).1 := by
  unfold parseIntSigned
  split
  · simp
  · simp only [IntSize]
    split_ifs <;> simp_all

/-- The value `Atoi` returns next to an error: 0 with a syntax error, the
bound of `int` on the side of the sign with a range error. -/
theorem Atoi_error (s : Str) :
    ((Atoi s).2 = some NumErr.ErrSyntax → (Atoi s).1 = 0) ∧
    ((Atoi s).2 = some NumErr.ErrRange →
      (Atoi s).1 = if s.head? = some '-' then -2 ^ 63 else 2 ^ 63 - 1) := by
  unfold Atoi
  cases s with
  | nil => simp [ParseInt]
  | cons c cs =>
    simp only [ParseInt, List.head?_cons, Option.some.injEq]
    by_cases hp : c = '+'
    · have hm : ¬ (c = '-') := by rw [hp]; decide
      simpa [hp, hm] using parseIntSigned_error false cs
    · by_cases hm : c = '-'
      · simpa [hp, hm] using parseIntSigned_error true cs
      · simpa [hp, hm] using parseIntSigned_error false (c :: cs)

theorem Atoi_nonneg (s : Str) (h : s.head? ≠ some '-') : 0 ≤ (Atoi s).1 := by
  unfold Atoi
  cases s with
  | nil => simp [ParseInt]
  | cons c cs =>
    have hm : ¬ (c = '-') := by simpa using h
    simp only [ParseInt, hm, if_false]
    split_ifs
    · exact parseIntSigned_nonneg cs
    · exact parseIntSigned_nonneg (c :: cs)

/-! ## Lemmas on `splitTrim` and on the split at `/` -/

theorem splitTrim_foldl (l : List Str) : ∀ acc : List Str,
    l.foldl (fun ret sub => let v := TrimSpace sub; if 0 < sub.length then ret ++ [v] else ret) acc
      = acc ++ (l.filter (fun sub => decide (0 < sub.length))).map TrimSpace := by
  induction l with
  | nil => intro acc; simp
  | cons x xs ih =>
    intro acc
    simp only [List.foldl_cons]
    rw [ih]
    by_cases hx : 0 < x.length
    · simp [hx, List.filter_cons]
    · simp [hx, List.filter_cons]

/-- What `splitTrim` computes: the segments that are non-empty as split,
each trimmed. -/
theorem splitTrim_eq (str sep : Str) :
    splitTrim str sep =
      ((Split str sep).filter (fun sub => decide (0 < sub.length))).map TrimSpace := by
  unfold splitTrim
  rw [splitTrim_foldl]
  simp

theorem Split_slash (s : Str) : Split s ['/'] = splitScan ['/'] 0 s := by
  simp [Split]

theorem splitScan_slash_cons (c : Char) (rest : Str) :
    splitScan ['/'] 0 (c :: rest) =
      if c = '/' then [] :: splitScan ['/'] 0 rest
      else match splitScan ['/'] 0 rest with
        | [] => [[c]]
        | seg :: segs => (c :: seg) :: segs := by
  rw [splitScan]
  by_cases h : c = '/'
  · simp [startsWith, h]
  · have h2 : ¬ ('/' = c) := fun e => h e.symm
    simp [startsWith, h, h2]

theorem splitScan_noSlash (x : Str) (hx : '/' ∉ x) : splitScan ['/'] 0 x = [x] := by
  induction x with
  | nil => rfl
  | cons c cs ih =>
    have hc : ¬ (c = '/') := fun e => hx (by simp [e])
    have hcs : '/' ∉ cs := fun e => hx (List.mem_cons_of_mem _ e)
    rw [splitScan_slash_cons, if_neg hc, ih hcs]

theorem splitScan_segment (x y : Str) (hx : '/' ∉ x) :
    splitScan ['/'] 0 (x ++ '/' :: y) = x :: splitScan ['/'] 0 y := by
  induction x with
  | nil => rw [List.nil_append, splitScan_slash_cons, if_pos rfl]
  | cons c cs ih =>
    have hc : ¬ (c = '/') := fun e => hx (by simp [e])
    have hcs : '/' ∉ cs := fun e => hx (List.mem_cons_of_mem _ e)
    rw [List.cons_append, splitScan_slash_cons, if_neg hc, ih hcs]

theorem dropWhile_head (s : Str) (h : ∀ c, s.head? = some c → isSpace c = false) :
    s.dropWhile isSpace = s := by
  cases s with
  | nil => rfl
  | cons c cs =>
    have hc := h c rfl
    simp [List.dropWhile_cons, hc]

theorem TrimSpace_eq_self (s : Str) (h : noOuterSpace s) : TrimSpace s = s := by
  unfold TrimSpace
  rw [dropWhile_head s h.1, dropWhile_head s.reverse (by
    intro c hc
    rw [List.head?_reverse] at hc
    exact h.2 c hc), List.reverse_reverse]

theorem digit_not_space (c : Char) (h : 48 ≤ c.toNat ∧ c.toNat ≤ 57) : isSpace c = false := by
  unfold isSpace
  simp only [Bool.or_eq_false_iff, Bool.and_eq_false_iff, beq_eq_false_iff_ne, ne_eq,
    decide_eq_false_iff_not]
  omega

theorem allDigits_noOuterSpace (s : Str) (h : allDigits s) : noOuterSpace s := by
  constructor
  · intro c hc
    exact digit_not_space c (h c (List.mem_of_mem_head? hc))
  · intro c hc
    exact digit_not_space c (h c (List.mem_of_mem_getLast? hc))

theorem allDigits_noSlash (s : Str) (h : allDigits s) : '/' ∉ s := by
  intro hm
  have := h '/' hm
  revert this
  decide

theorem splitTrim_noSlash (a : Str) (hne : a ≠ []) (hs : '/' ∉ a) (ht : noOuterSpace a) :
    splitTrim a ['/'] = [a] := by
  have hlen : 0 < a.length := List.length_pos.2 hne
  rw [splitTrim_eq, Split_slash, splitScan_noSlash a hs]
  simp [hlen, TrimSpace_eq_self a ht]

theorem splitTrim_segment (x y : Str) (hne : x ≠ []) (hs : '/' ∉ x) (ht : noOuterSpace x) :
    splitTrim (x ++ '/' :: y) ['/'] = x :: splitTrim y ['/'] := by
  have hlen : 0 < x.length := List.length_pos.2 hne
  rw [splitTrim_eq, splitTrim_eq, Split_slash, Split_slash, splitScan_segment x y hs]
  simp [hlen, TrimSpace_eq_self x ht]

/-! ## Lemmas on the db index of a request -/

theorem or_32_ge (x : Nat) (h : 128 ≤ x) : 128 ≤ x ||| 32 := by
  have hr : x % 64 < 2 ^ 6 := Nat.mod_lt _ (by norm_num)
  have h32 : 32 < 2 ^ 6 := by norm_num
  have h2 : x % 64 ||| 32 < 2 ^ 6 := Nat.or_lt_two_pow hr h32
  have e1 : 2 ^ 6 * (x / 64) + x % 64 = 2 ^ 6 * (x / 64) ||| x % 64 :=
    Nat.mul_add_lt_is_or hr _
  have e2 : 2 ^ 6 * (x / 64) + (x % 64 ||| 32) = 2 ^ 6 * (x / 64) ||| (x % 64 ||| 32) :=
    Nat.mul_add_lt_is_or h2 _
  have hx : x = 2 ^ 6 * (x / 64) + x % 64 := by
    have := Nat.div_add_mod x 64
    omega
  have e3 : x ||| 32 = 2 ^ 6 * (x / 64) + (x % 64 ||| 32) := by
    rw [e2, ← Nat.or_assoc, ← e1, ← hx]
  rw [e3]
  omega

theorem or_32_lt (x : Nat) (h : x < 64) : x ||| 32 < 64 :=
  Nat.or_lt_two_pow (n := 6) h (by norm_num)

/-- White space is neither a digit nor a letter for `ParseUint`. -/
theorem space_not_alnum (c : Char) (h : isSpace c = true) :
    ¬ (48 ≤ c.toNat ∧ c.toNat ≤ 57) ∧ ¬ (97 ≤ c.toNat ||| 32 ∧ c.toNat ||| 32 ≤ 122) := by
  have hcases : c.toNat ≤ 32 ∨ 128 ≤ c.toNat := by
    simp only [isSpace, Bool.or_eq_true, Bool.and_eq_true, beq_iff_eq, decide_eq_true_eq] at h
    omega
  rcases hcases with hlow | hhigh
  · have := or_32_lt c.toNat (by omega)
    omega
  · have := or_32_ge c.toNat hhigh
    omega

/-- A text that begins with white space is a syntax error for `Atoi`, with
value 0. -/
theorem Atoi_leading_space (c : Char) (rest : Str) (h : isSpace c = true) :
    (Atoi (c :: rest)).1 = 0 := by
  obtain ⟨hd, hl⟩ := space_not_alnum c h
  have hp : ¬ (c = '+') := by
    intro e; rw [e] at h; revert h; decide
  have hm : ¬ (c = '-') := by
    intro e; rw [e] at h; revert h; decide
  have hu : ParseUint (c :: rest) = (0, some NumErr.ErrSyntax) := by
    unfold ParseUint
    rw [if_neg (List.cons_ne_nil _ _)]
    unfold parseUintLoop
    simp only [hd, hl, if_false]
  simp only [Atoi, ParseInt, hp, hm, if_false, parseIntSigned, hu]

/-- The db index of a request, without `EmptyThen`. -/
theorem requestDb_eq (r : Request) :
    requestDb r =
      if r.FormValue "db".toList = [] then 0 else (Atoi (r.FormValue "db".toList)).1 := by
  unfold requestDb EmptyThen
  by_cases h : r.FormValue "db".toList = []
  · rw [if_pos h, if_pos h]
    decide
  · rw [if_neg h, if_neg h]

theorem newRedisClientToDb_DB (server : RedisServer) (db : Int) :
    (newRedisClientToDb server db).DB = db := by
  unfold newRedisClientToDb NewClient
  split <;> rfl

/-! ## The claims -/

/-- C1: with `segs = splitTrim(s, "/")`, one segment gives
`{Addr: segs[0], Password: "", DefaultDb: 0}`; two segments whose second is
the decimal text of an int `n` give `{Addr: segs[0], Password: "",
DefaultDb: n}`; three segments whose third is the decimal text of an int
`n` give `{Addr: segs[1], Password: segs[0], DefaultDb: n}`. -/
theorem parseServerItem_by_segment_count (s : Str) :
    (∀ a, splitTrim s ['/'] = [a] →
      parseServerItem s = some { Addr := a, Password := [], DefaultDb := 0 }) ∧
    (∀ a b n, splitTrim s ['/'] = [a, b] → -2 ^ 63 ≤ n → n < 2 ^ 63 → b = Itoa n →
      parseServerItem s = some { Addr := a, Password := [], DefaultDb := n }) ∧
    (∀ p a b n, splitTrim s ['/'] = [p, a, b] → -2 ^ 63 ≤ n → n < 2 ^ 63 → b = Itoa n →
      parseServerItem s = some { Addr := a, Password := p, DefaultDb := n }) := by
  refine ⟨?_, ?_, ?_⟩
  · intro a h
    unfold parseServerItem
    rw [h]
  · intro a b n h hlo hhi hb
    unfold parseServerItem
    rw [h]
    simp only [hb, Atoi_Itoa n hlo hhi]
  · intro p a b n h hlo hhi hb
    unfold parseServerItem
    rw [h]
    simp only [hb, Atoi_Itoa n hlo hhi]

/-- C1 at `"password2/localhost:6388/42"`. -/
theorem parseServerItem_by_segment_count_witness :
    parseServerItem "password2/localhost:6388/42".toList =
      some { Addr := "localhost:6388".toList, Password := "password2".toList, DefaultDb := 42 } :=
  (parseServerItem_by_segment_count "password2/localhost:6388/42".toList).2.2
    "password2".toList "localhost:6388".toList "42".toList 42
    (by decide) (by decide) (by decide) (by decide)

/-- C2: `parseServerItem(s)` panics if and only if `splitTrim(s, "/")` does
not yield 1, 2 or 3 segments; it panics for the empty string, for `"/"`, and
for every string with four or more non-empty segments (counted as split, or
counted after trimming). -/
theorem parseServerItem_panics_iff (s : Str) :
    (parseServerItem s = none ↔
      ¬ ((splitTrim s ['/']).length = 1 ∨ (splitTrim s ['/']).length = 2 ∨
         (splitTrim s ['/']).length = 3)) ∧
    parseServerItem [] = none ∧ parseServerItem ['/'] = none ∧
    (4 ≤ ((Split s ['/']).filter (fun seg => decide (seg ≠ []))).length →
      parseServerItem s = none) ∧
    (4 ≤ ((Split s ['/']).filter (fun seg => decide (TrimSpace seg ≠ []))).length →
      parseServerItem s = none) := by
  have hiff : parseServerItem s = none ↔
      ¬ ((splitTrim s ['/']).length = 1 ∨ (splitTrim s ['/']).length = 2 ∨
         (splitTrim s ['/']).length = 3) := by
    unfold parseServerItem
    rcases splitTrim s ['/'] with _ | ⟨a, _ | ⟨b, _ | ⟨c, _ | ⟨d, l⟩⟩⟩⟩ <;> simp
  have hlen : (splitTrim s ['/']).length =
      ((Split s ['/']).filter (fun seg => decide (seg ≠ []))).length := by
    rw [splitTrim_eq, List.length_map]
    congr 1
    apply List.filter_congr
    intro x _
    cases x <;> simp
  refine ⟨hiff, by decide, by decide, ?_, ?_⟩
  · intro h
    rw [hiff, hlen]
    omega
  · intro h
    have hsub : ((Split s ['/']).filter (fun seg => decide (TrimSpace seg ≠ []))).length ≤
        ((Split s ['/']).filter (fun seg => decide (seg ≠ []))).length := by
      apply List.Sublist.length_le
      apply List.monotone_filter_right
      intro x hx
      cases x with
      | nil => simp [TrimSpace] at hx
      | cons c cs => simp
    rw [hiff, hlen]
    omega

/-- C2 at `"a/b/c/d"`. -/
theorem parseServerItem_panics_iff_witness : parseServerItem "a/b/c/d".toList = none :=
  (parseServerItem_panics_iff "a/b/c/d".toList).2.2.2.1 (by decide)

/-- C3, as stated, fails: the password-and-address string
`"secret/localhost:6379"` is read as address `secret` with no password. -/
theorem parseServerItem_password_address_counterexample :
    parseServerItem "secret/localhost:6379".toList =
      some { Addr := "secret".toList, Password := [], DefaultDb := 0 } ∧
    parseServerItem "secret/localhost:6379".toList ≠
      some { Addr := "localhost:6379".toList, Password := "secret".toList, DefaultDb := 0 } := by
  decide

/-- C3, amended: for every non-empty password `p`, address `a` (neither
containing `/` nor surrounding white space) and db index `0 ≤ d < 2^63`,
the strings `a`, `a/d` and `p/a/d` parse to `Addr = a`, `Password = p`
(`""` when omitted) and `DefaultDb = d` (0 when omitted); the two-segment
string `p/a` is read as address and db: `Addr = p`, `Password = ""`,
`DefaultDb` the value `Atoi` returns for `a`. -/
theorem parseServerItem_recovers_shapes (p a : Str) (d : Int)
    (hp : p ≠ []) (hps : '/' ∉ p) (hpt : noOuterSpace p)
    (ha : a ≠ []) (has : '/' ∉ a) (hat : noOuterSpace a)
    (hd0 : 0 ≤ d) (hd1 : d < 2 ^ 63) :
    parseServerItem a = some { Addr := a, Password := [], DefaultDb := 0 } ∧
    parseServerItem (a ++ '/' :: Itoa d) = some { Addr := a, Password := [], DefaultDb := d } ∧
    parseServerItem (p ++ '/' :: (a ++ '/' :: Itoa d)) =
      some { Addr := a, Password := p, DefaultDb := d } ∧
    parseServerItem (p ++ '/' :: a) =
      some { Addr := p, Password := [], DefaultDb := (Atoi a).1 } := by
  have hItoa : Itoa d = formatBits d.natAbs d.natAbs [] := by
    unfold Itoa FormatInt
    rw [if_neg (by omega)]
  obtain ⟨hne, hdig, _⟩ := formatBits_self d.natAbs
  rw [← hItoa] at hne hdig
  have hdseg : splitTrim (Itoa d) ['/'] = [Itoa d] :=
    splitTrim_noSlash _ hne (allDigits_noSlash _ hdig) (allDigits_noOuterSpace _ hdig)
  have haseg : splitTrim a ['/'] = [a] := splitTrim_noSlash a ha has hat
  have hrt : Atoi (Itoa d) = (d, none) := Atoi_Itoa d (by omega) hd1
  refine ⟨?_, ?_, ?_, ?_⟩
  · unfold parseServerItem
    rw [haseg]
  · unfold parseServerItem
    rw [splitTrim_segment a _ ha has hat, hdseg]
    simp only [hrt]
  · unfold parseServerItem
    rw [splitTrim_segment p _ hp hps hpt, splitTrim_segment a _ ha has hat, hdseg]
    simp only [hrt]
  · unfold parseServerItem
    rw [splitTrim_segment p _ hp hps hpt, haseg]

/-- C3, amended, at password `pw`, address `host:1`, db 5. -/
theorem parseServerItem_recovers_shapes_witness :
    parseServerItem "host:1".toList =
      some { Addr := "host:1".toList, Password := [], DefaultDb := 0 } ∧
    parseServerItem ("host:1".toList ++ '/' :: Itoa 5) =
      some { Addr := "host:1".toList, Password := [], DefaultDb := 5 } ∧
    parseServerItem ("pw".toList ++ '/' :: ("host:1".toList ++ '/' :: Itoa 5)) =
      some { Addr := "host:1".toList, Password := "pw".toList, DefaultDb := 5 } ∧
    parseServerItem ("pw".toList ++ '/' :: "host:1".toList) =
      some { Addr := "pw".toList, Password := [], DefaultDb := (Atoi "host:1".toList).1 } :=
  parseServerItem_recovers_shapes "pw".toList "host:1".toList 5
    (by decide) (by decide) (by unfold noOuterSpace; decide)
    (by decide) (by decide) (by unfold noOuterSpace; decide) (by decide) (by decide)

/-- C4: on `"a/ /b"` with separator `"/"` the code keeps the white-space
segment as an empty string, `["a", "", "b"]`, where the specified list
(split, trim, discard the empty segments) is `["a", "b"]`. -/
theorem splitTrim_keeps_blank_segment :
    splitTrim "a/ /b".toList ['/'] = ["a".toList, [], "b".toList] ∧
    splitTrimSpec "a/ /b".toList ['/'] = ["a".toList, "b".toList] ∧
    [] ∈ splitTrim "a/ /b".toList ['/'] := by
  decide

/-- C5, as stated, fails: the digit string `99999999999999999999` is out of
the int range, `Atoi` returns `ErrRange`, and `DefaultDb` is `2^63 - 1`. -/
theorem parseServerItem_range_error_counterexample :
    (Atoi "99999999999999999999".toList).2 = some NumErr.ErrRange ∧
    parseServerItem "a/99999999999999999999".toList =
      some { Addr := "a".toList, Password := [], DefaultDb := 9223372036854775807 } ∧
    (9223372036854775807 : Int) ≠ 0 := by
  decide

/-- C5, amended: for every configuration string with 2 or 3 segments whose
last segment fails integer parsing, `DefaultDb` is 0 when the failure is a
syntax error, and the bound of the int range on the side of the sign
(`-2^63` after a leading `-`, else `2^63 - 1`) when it is a range error. -/
theorem parseServerItem_db_on_parse_failure (s : Str) (db : Str) (srv : RedisServer)
    (hseg : dbSegment s = some db) (hsrv : parseServerItem s = some srv) :
    ((Atoi db).2 = some NumErr.ErrSyntax → srv.DefaultDb = 0) ∧
    ((Atoi db).2 = some NumErr.ErrRange →
      srv.DefaultDb = if db.head? = some '-' then -2 ^ 63 else 2 ^ 63 - 1) := by
  have hdb : srv.DefaultDb = (Atoi db).1 := by
    unfold dbSegment at hseg
    unfold parseServerItem at hsrv
    rcases hl : splitTrim s ['/'] with _ | ⟨a, _ | ⟨b, _ | ⟨c, _ | ⟨e, l⟩⟩⟩⟩ <;>
      rw [hl] at hseg hsrv <;> simp at hseg hsrv <;> subst hseg <;> subst hsrv <;> rfl
  rw [hdb]
  exact Atoi_error db

/-- C5, amended, at `"a/x1"`: a syntax error, `DefaultDb = 0`. -/
theorem parseServerItem_db_on_parse_failure_witness :
    (Atoi "x1".toList).2 = some NumErr.ErrSyntax ∧
    (RedisServer.mk "a".toList [] 0).DefaultDb = 0 :=
  ⟨by decide,
   (parseServerItem_db_on_parse_failure "a/x1".toList "x1".toList
      (RedisServer.mk "a".toList [] 0) (by decide) (by decide)).1 (by decide)⟩

/-- C6, as stated, fails: address `a` followed by the db segment `-1`
parses to `DefaultDb = -1`. -/
theorem parseServerItem_negative_db_counterexample :
    parseServerItem ['a', '/', '-', '1'] =
      some { Addr := ['a'], Password := [], DefaultDb := -1 } ∧
    ¬ ((0 : Int) ≤ -1) := by
  decide

/-- C6, amended: for every configuration string `s` on which
`parseServerItem` does not panic and whose db segment (the last of 2 or 3
segments), if there is one, does not begin with `-`, the descriptor has
`DefaultDb ≥ 0`. -/
theorem parseServerItem_db_nonneg (s : Str) (srv : RedisServer)
    (hsrv : parseServerItem s = some srv)
    (hsign : ∀ db, dbSegment s = some db → db.head? ≠ some '-') : 0 ≤ srv.DefaultDb := by
  unfold dbSegment at hsign
  unfold parseServerItem at hsrv
  rcases hl : splitTrim s ['/'] with _ | ⟨a, _ | ⟨b, _ | ⟨c, _ | ⟨e, l⟩⟩⟩⟩ <;>
    rw [hl] at hsign hsrv <;> simp at hsign hsrv <;> subst hsrv
  · exact le_refl _
  · exact Atoi_nonneg b hsign
  · exact Atoi_nonneg c hsign

/-- C6, amended, at `"pw/host/+7"`. -/
theorem parseServerItem_db_nonneg_witness :
    (0 : Int) ≤ (RedisServer.mk "host".toList "pw".toList 7).DefaultDb :=
  parseServerItem_db_nonneg "pw/host/+7".toList (RedisServer.mk "host".toList "pw".toList 7)
    (by decide) (by decide)

/-- C7: for every request and every outcome `(val, err)` of
`getRedisContent`, `getCache` answers status 200 with an empty body when
`err` is `redis.Nil`, status 200 with body `val` when `err` is nil, and
status 405 with the error's message (and a newline) for every other `err`. -/
theorem getCache_response {F D : Type} (env : Env F D) (redisServer : RedisServer) (r : Request)
    (t : Trace F D) (val : Str) (err : Option GoError)
    (hout : (getRedisContent env redisServer (TrimSpace (r.FormValue "key".toList))
      (requestDb r) t).1 = (val, err)) :
    (err = some redisNil →
      (getCache env redisServer r t).1 = { status := 200, body := [] }) ∧
    (err = none →
      (getCache env redisServer r t).1 = { status := 200, body := val }) ∧
    (∀ e, err = some e → e ≠ redisNil →
      (getCache env redisServer r t).1 = { status := 405, body := e.Error ++ ['\n'] }) := by
  have hresp : (getCache env redisServer r t).1 = getCacheRespond val err := by
    have h1 := congrArg Prod.fst hout
    have h2 := congrArg Prod.snd hout
    simp only [requestDb] at h1 h2
    simp only [getCache, h1, h2]
  rw [hresp]
  refine ⟨?_, ?_, ?_⟩
  · intro h
    simp [getCacheRespond, h, writeBody]
  · intro h
    simp [getCacheRespond, h, writeBody]
  · intro e h hne
    simp [getCacheRespond, h, hne, httpError]

/-- C7 at a request for key `k` on a store that finds nothing. -/
theorem getCache_response_witness :
    (getCache sampleEnv sampleServer (requestOf [("key".toList, "k".toList)]) []).1 =
      { status := 200, body := [] } :=
  (getCache_response sampleEnv sampleServer (requestOf [("key".toList, "k".toList)]) []
    [] (some redisNil) (by decide)).1 rfl

/-- C8: if the score is not parseable as a float, `zaddRedisContent`
returns `(0, parse error)` and `zaddCache` answers 405; if the ttl is not
parseable as a duration, `setRedisContent` returns `("", parse error)` and
`setCache` answers 405; in each case the commands issued to the store are
the same after as before. -/
theorem malformed_number_rejected {F D : Type} (env : Env F D) (redisServer : RedisServer)
    (key value score ttl : Str) (db : Int) (r : Request) (t : Trace F D) :
    (∀ e, env.ParseFloat score = Except.error e →
      zaddRedisContent env redisServer key value score db t = ((0, some e), t)) ∧
    (∀ e, env.ParseFloat (TrimSpace (r.FormValue "score".toList)) = Except.error e →
      zaddCache env redisServer r t = ({ status := 405, body := e.Error ++ ['\n'] }, t)) ∧
    (∀ e, env.ParseDuration ttl = Except.error e →
      setRedisContent env redisServer key value ttl db t = (([], some e), t)) ∧
    (∀ e, env.ParseDuration (TrimSpace (r.FormValue "ttl".toList)) = Except.error e →
      setCache env redisServer r t = ({ status := 405, body := e.Error ++ ['\n'] }, t)) := by
  refine ⟨?_, ?_, ?_, ?_⟩
  · intro e h
    simp [zaddRedisContent, h]
  · intro e h
    simp only [zaddCache, zaddRedisContent, h, httpError]
  · intro e h
    simp [setRedisContent, h]
  · intro e h
    simp only [setCache, setRedisContent, h, httpError]

/-- C8 at a `zaddCache` request with score `abc`. -/
theorem malformed_number_rejected_witness :
    zaddCache sampleEnv sampleServer
      (requestOf [("key".toList, "k".toList), ("score".toList, "abc".toList)]) [] =
      ({ status := 405, body := "invalid syntax\n".toList }, []) :=
  (malformed_number_rejected sampleEnv sampleServer [] [] [] [] 0
    (requestOf [("key".toList, "k".toList), ("score".toList, "abc".toList)]) []).2.1
    (GoError.other "invalid syntax".toList) rfl

/-- C9, as stated, fails: with the db field `" 2 "` the command of
`getCache` goes to index 0, while the trimmed field has the value 2. -/
theorem getCache_untrimmed_db_counterexample :
    (getCache sampleEnv sampleServer
      (requestOf [("key".toList, "k".toList), ("db".toList, " 2 ".toList)]) []).2 =
      [{ client := { Addr := "127.0.0.1:6379".toList, Password := [], DB := 0 },
         cmd := Cmd.Get "k".toList }] ∧
    (Atoi (TrimSpace " 2 ".toList)).1 = 2 := by
  decide

/-- C9, amended: for each of the four endpoints, a command the handler
issues goes to the db index 0 when the db form field is absent or empty, and
otherwise to the value `strconv.Atoi` returns for the field as received,
without trimming: `n` when the field is the decimal text of an int `n`, and
0 whenever the field begins with white space; the descriptor's `DefaultDb`
plays no part. -/
theorem handlers_db_index {F D : Type} (env : Env F D) (redisServer : RedisServer) (r : Request)
    (t : Trace F D) (db : Int)
    (hdb : db = if r.FormValue "db".toList = [] then 0 else (Atoi (r.FormValue "db".toList)).1) :
    ((zaddCache env redisServer r t).2 = t ∨
      ∃ c, (zaddCache env redisServer r t).2 = t ++ [c] ∧ c.client.DB = db) ∧
    ((setCache env redisServer r t).2 = t ∨
      ∃ c, (setCache env redisServer r t).2 = t ++ [c] ∧ c.client.DB = db) ∧
    (∃ c, (getCache env redisServer r t).2 = t ++ [c] ∧ c.client.DB = db) ∧
    (∃ c, (clearCache env redisServer r t).2 = t ++ [c] ∧ c.client.DB = db) ∧
    (∀ n : Int, -2 ^ 63 ≤ n → n < 2 ^ 63 → r.FormValue "db".toList = Itoa n → db = n) ∧
    (∀ c rest, r.FormValue "db".toList = c :: rest → isSpace c = true → db = 0) ∧
    (∀ n : Int,
      zaddCache env { redisServer with DefaultDb := n } r t = zaddCache env redisServer r t ∧
      setCache env { redisServer with DefaultDb := n } r t = setCache env redisServer r t ∧
      getCache env { redisServer with DefaultDb := n } r t = getCache env redisServer r t ∧
      clearCache env { redisServer with DefaultDb := n } r t =
        clearCache env redisServer r t) := by
  have hreq : requestDb r = db := by rw [hdb]; exact requestDb_eq r
  have hDB : (newRedisClientToDb redisServer (requestDb r)).DB = db := by
    rw [newRedisClientToDb_DB, hreq]
  refine ⟨?_, ?_, ?_, ?_, ?_, ?_, ?_⟩
  · cases hpf : env.ParseFloat (TrimSpace (r.FormValue "score".toList)) with
    | error e =>
      left
      simp only [zaddCache, zaddRedisContent, hpf]
    | ok f =>
      right
      refine ⟨{ client := newRedisClientToDb redisServer (requestDb r),
                cmd := Cmd.ZAdd (TrimSpace (r.FormValue "key".toList)) f
                  (TrimSpace (r.FormValue "value".toList)) }, ?_, hDB⟩
      simp only [zaddCache, zaddRedisContent, hpf, requestDb]
      split <;> simp_all
  · cases hpd : env.ParseDuration (TrimSpace (r.FormValue "ttl".toList)) with
    | error e =>
      left
      simp only [setCache, setRedisContent, hpd]
    | ok d =>
      right
      refine ⟨{ client := newRedisClientToDb redisServer (requestDb r),
                cmd := Cmd.Set (TrimSpace (r.FormValue "key".toList))
                  (TrimSpace (r.FormValue "value".toList)) d }, ?_, hDB⟩
      simp only [setCache, setRedisContent, hpd, requestDb]
      split <;> simp_all
  · exact ⟨{ client := newRedisClientToDb redisServer (requestDb r),
             cmd := Cmd.Get (TrimSpace (r.FormValue "key".toList)) }, rfl, hDB⟩
  · refine ⟨{ client := newRedisClientToDb redisServer (requestDb r),
              cmd := Cmd.Del (Split (TrimSpace (r.FormValue "keys".toList)) [',']) }, ?_, hDB⟩
    simp only [clearCache, deleteMultiKeys, requestDb]
    split <;> simp_all
  · intro n hlo hhi hn
    have hne : Itoa n ≠ [] := by
      intro h0
      have h1 := Atoi_Itoa n hlo hhi
      rw [h0] at h1
      have h2 : (Atoi []).2 = none := by rw [h1]
      revert h2
      decide
    rw [hdb, hn, if_neg hne, Atoi_Itoa n hlo hhi]
  · intro c rest hc hsp
    rw [hdb, hc, if_neg (List.cons_ne_nil _ _), Atoi_leading_space c rest hsp]
  · intro n
    exact ⟨rfl, rfl, rfl, rfl⟩

/-- C9, amended, at a `getCache` request with the db field `3`: the one
command issued goes to index 3. -/
theorem handlers_db_index_witness :
    ∃ c, (getCache sampleEnv sampleServer
      (requestOf [("key".toList, "k".toList), ("db".toList, "3".toList)]) []).2 = [] ++ [c] ∧
      c.client.DB = 3 :=
  (handlers_db_index sampleEnv sampleServer
    (requestOf [("key".toList, "k".toList), ("db".toList, "3".toList)]) [] 3 (by decide)).2.2.1

/-- C10: for the context path argument `a/b`, which is non-empty and does
not begin with `/`, `init` leaves the prefix as `a/b`, and the route
registered for `/getCache` is `a/b/getCache`; the claim asks for `/a/b`. -/
theorem init_contextPath_inner_slash :
    init "a/b".toList "127.0.0.1:6379".toList 8082 =
      some { contextPath := "a/b".toList, port := "8082".toList,
             redisServer := { Addr := "127.0.0.1:6379".toList, Password := [], DefaultDb := 0 } } ∧
    "a/b".toList.head? ≠ some '/' ∧
    handleFunc "a/b".toList "/getCache".toList = "a/b/getCache".toList := by
  decide

end YogaProxy
